import Mathlib

/-!
# Verification of the kanban-assignment board state synchronization engine

Shallow embedding of the Express server's board operations
(`src/README.md`, the inlined `server.js`: `addToHistory`, the
`/api/tasks` POST/PUT/DELETE routes and `/api/tasks/:id/move`) and of the
Zustand client store (`src/kanban-frontend/src/store.ts`), together with
proofs of the spec's testable properties.

Modelling conventions:
* Timestamps (`new Date().toISOString()`) and uuid values are opaque
  strings passed in as parameters; uuid freshness becomes an explicit
  hypothesis in the reachability relation.
* The persisted document's `columns` object has exactly the keys
  `todo`, `inprogress`, `done`: they are created once by
  `initializeDataFile` and no route ever adds or removes a column, so the
  mapping is embedded as a fixed three-field record with string lookup.
* A missing request field is `Option.none`; a missing `title` behaves like
  the empty string under the server's JS falsiness check `if (!title)`,
  so `createTask` takes `title : String` and rejects exactly `""`.
* JS `Array.prototype.splice` index normalization (negative indices count
  from the end, out-of-range indices clamp) is embedded explicitly over
  `Int` indices.
* File persistence (`readData`/`writeData`) is treated as an atomic,
  always-successful document store: a route that returns an error before
  writing leaves the persisted document unchanged.
-/

namespace Kanban

/-- A task record, as stored in `data.tasks` by the server. `createTask`
always stores a string `description` (`description || ''`). -/
structure Task where
  id : String
  title : String
  description : String
  createdAt : String
deriving DecidableEq, Repr

/-- A column record: `{ id, title, taskIds }`. -/
structure Column where
  id : String
  title : String
  taskIds : List String
deriving DecidableEq, Repr

/-- A history entry produced by `addToHistory`. -/
structure HistoryEntry where
  id : String
  action : String
  timestamp : String
deriving DecidableEq, Repr

/-- The `columns` object of the persisted document. `initializeDataFile`
creates exactly the keys `todo`, `inprogress`, `done` and no route ever
adds or deletes a column key, so the mapping is a fixed record. -/
structure Columns where
  todo : Column
  inprogress : Column
  done : Column
deriving DecidableEq, Repr

/-- String-keyed lookup `data.columns[cid]` (undefined for other keys). -/
def Columns.find (c : Columns) (cid : String) : Option Column :=
  if cid = "todo" then some c.todo
  else if cid = "inprogress" then some c.inprogress
  else if cid = "done" then some c.done
  else none

/-- Replace the column stored under key `cid` (no-op on unknown keys;
the server only writes through keys it has successfully looked up). -/
def Columns.set (c : Columns) (cid : String) (col : Column) : Columns :=
  if cid = "todo" then { c with todo := col }
  else if cid = "inprogress" then { c with inprogress := col }
  else if cid = "done" then { c with done := col }
  else c

/-- The whole persisted board document (`tasks.json`). The `tasks`
mapping is an association list in JS object insertion order. -/
structure BoardDoc where
  tasks : List (String × Task)
  columns : Columns
  columnOrder : List String
  history : List HistoryEntry
deriving DecidableEq, Repr

/-- JS object property read `obj[k]` over an association list in key
insertion order (`undefined` becomes `none`). -/
def alookup {κ α : Type} [DecidableEq κ] (l : List (κ × α)) (k : κ) : Option α :=
  match l with
  | [] => none
  | p :: ps => if p.1 = k then some p.2 else alookup ps k

/-- JS object property write `obj[k] = v`: replace in place if the key
exists, otherwise append (JS objects keep string-key insertion order). -/
def aset {κ α : Type} [DecidableEq κ] (l : List (κ × α)) (k : κ) (v : α) :
    List (κ × α) :=
  if (alookup l k).isSome then
    l.map (fun p => if p.1 = k then (k, v) else p)
  else l ++ [(k, v)]

/-- Write `tasks[k] = v` on the document's task mapping. -/
def setTask (ts : List (String × Task)) (k : String) (v : Task) :
    List (String × Task) :=
  aset ts k v

/-- Errors a route can answer with (HTTP 400 / 404). -/
inductive ApiError where
  | badRequest (msg : String)
  | notFound (msg : String)
deriving DecidableEq, Repr

/-- ECMAScript `splice` start-index normalization: a negative start
counts back from the end and clamps at 0; a nonnegative start clamps at
the length. -/
def spliceStart (len : Nat) (i : Int) : Nat :=
  if i < 0 then ((len : Int) + i).toNat else min i.toNat len

/-- Removal `arr.splice(i, 1)`: drop (at most) one element at normalized
position `i`. -/
def spliceRemoveOne (l : List String) (i : Int) : List String :=
  let s := spliceStart l.length i
  l.take s ++ l.drop (s + 1)

/-- Insertion `arr.splice(i, 0, x)`: put `x` at the normalized position `i`. -/
def spliceInsertAt (l : List String) (i : Int) (x : String) : List String :=
  let s := spliceStart l.length i
  l.take s ++ x :: l.drop s

/-- The helper `addToHistory(data, action)`: unshift a fresh entry, keep only the
last 5 actions (`slice(0, 5)`). -/
def addToHistory (d : BoardDoc) (hid ts action : String) : BoardDoc :=
  { d with history := (⟨hid, action, ts⟩ :: d.history).take 5 }

/-- Route `POST /api/tasks`. Rejects a falsy `title` (empty or missing, both
embedded as `""`) with 400; otherwise stores the new task (with
`description || ''`), pushes its id onto `data.columns.todo.taskIds`,
and logs `Created task: "<title>"`. -/
def createTask (d : BoardDoc) (freshId title : String)
    (description : Option String) (ts hid : String) :
    Except ApiError (BoardDoc × Task) :=
  if title = "" then .error (.badRequest "Task title is required")
  else
    let newTask : Task :=
      { id := freshId, title := title
        description := match description with
          | none => ""
          | some s => if s = "" then "" else s
        createdAt := ts }
    let d1 : BoardDoc :=
      { d with
        tasks := setTask d.tasks freshId newTask
        columns := { d.columns with
          todo := { d.columns.todo with
            taskIds := d.columns.todo.taskIds ++ [freshId] } } }
    .ok (addToHistory d1 hid ts ("Created task: \"" ++ title ++ "\""), newTask)

/-- Route `PUT /api/tasks/:id`. 404 when the id is unknown; otherwise
`title || existing` and `description !== undefined ? description :
existing`, then logs `Updated task: "<old>" → "<new>"`. -/
def updateTask (d : BoardDoc) (id : String)
    (title description : Option String) (ts hid : String) :
    Except ApiError (BoardDoc × Task) :=
  match alookup d.tasks id with
  | none => .error (.notFound "Task not found")
  | some t =>
    let newTitle := match title with
      | none => t.title
      | some s => if s = "" then t.title else s
    let newDesc := match description with
      | none => t.description
      | some s => s
    let t' : Task := { t with title := newTitle, description := newDesc }
    let d1 := { d with tasks := setTask d.tasks id t' }
    .ok (addToHistory d1 hid ts
      ("Updated task: \"" ++ t.title ++ "\" → \"" ++ newTitle ++ "\""), t')

/-- Remove a task id from one column's `taskIds` (the body of the
`Object.values(data.columns).forEach` filter in the DELETE route). -/
def removeFromColumn (c : Column) (id : String) : Column :=
  { c with taskIds := c.taskIds.filter (fun tid => tid ≠ id) }

/-- Route `DELETE /api/tasks/:id`. 404 when unknown; otherwise filters the id
out of every column, deletes it from `tasks`, logs
`Deleted task: "<title>"`. -/
def deleteTask (d : BoardDoc) (id : String) (ts hid : String) :
    Except ApiError BoardDoc :=
  match alookup d.tasks id with
  | none => .error (.notFound "Task not found")
  | some t =>
    let d1 : BoardDoc :=
      { d with
        tasks := (d.tasks.filter (fun p => p.1 ≠ id))
        columns :=
          { todo := removeFromColumn d.columns.todo id
            inprogress := removeFromColumn d.columns.inprogress id
            done := removeFromColumn d.columns.done id } }
    .ok (addToHistory d1 hid ts ("Deleted task: \"" ++ t.title ++ "\""))

/-- Route `POST /api/tasks/:id/move`. 404 when the task id is unknown, 400
when either column id is unknown. Splices the id out of the source
(`splice(sourceIndex, 1)`) and into the destination
(`splice(destIndex, 0, id)`); when the two column ids coincide the JS
objects alias, so the insertion acts on the already-shortened list —
embedded by threading the source update before the destination lookup.
Logs `Moved "<title>" from <src title> to <dst title>` only across
columns. -/
def moveTask (d : BoardDoc) (id srcId dstId : String)
    (srcIdx dstIdx : Int) (ts hid : String) : Except ApiError BoardDoc :=
  match alookup d.tasks id with
  | none => .error (.notFound "Task not found")
  | some t =>
    match d.columns.find srcId, d.columns.find dstId with
    | some srcCol, some dstCol =>
      let srcCol' := { srcCol with
        taskIds := spliceRemoveOne srcCol.taskIds srcIdx }
      let dstCur := if dstId = srcId then srcCol' else dstCol
      let dstCol' := { dstCur with
        taskIds := spliceInsertAt dstCur.taskIds dstIdx id }
      let d1 := { d with
        columns := (d.columns.set srcId srcCol').set dstId dstCol' }
      if srcId ≠ dstId then
        .ok (addToHistory d1 hid ts
          ("Moved \"" ++ t.title ++ "\" from " ++ srcCol.title ++
            " to " ++ dstCol.title))
      else .ok d1
    | _, _ => .error (.badRequest "Invalid column")

/-- The seed `initializeDataFile` creates: one welcome task in
`todo`, empty history; `ts` is the opaque creation timestamp. -/
def initialData (ts : String) : BoardDoc :=
  { tasks := [("task-1",
      { id := "task-1"
        title := "Welcome to your Kanban Board!"
        description := "Drag me to different columns or edit me by clicking!"
        createdAt := ts })]
    columns :=
      { todo := { id := "todo", title := "To Do", taskIds := ["task-1"] }
        inprogress := { id := "inprogress", title := "In Progress", taskIds := [] }
        done := { id := "done", title := "Done", taskIds := [] } }
    columnOrder := ["todo", "inprogress", "done"]
    history := [] }

/-! ## Operations, reachability -/

/-- One mutating request, with the server-generated opaque values
(uuid, timestamps) as explicit parameters. -/
inductive Op where
  | create (freshId title : String) (descr : Option String) (ts hid : String)
  | update (id : String) (title descr : Option String) (ts hid : String)
  | delete (id : String) (ts hid : String)
  | move (id srcId dstId : String) (srcIdx dstIdx : Int) (ts hid : String)
deriving DecidableEq, Repr

/-- The persisted document after an operation: a route that fails
returns an error before writing, so the document is unchanged. -/
def applyOp (d : BoardDoc) : Op → BoardDoc
  | .create fid title descr ts hid =>
    match createTask d fid title descr ts hid with
    | .ok (d', _) => d'
    | .error _ => d
  | .update id title descr ts hid =>
    match updateTask d id title descr ts hid with
    | .ok (d', _) => d'
    | .error _ => d
  | .delete id ts hid =>
    match deleteTask d id ts hid with
    | .ok d' => d'
    | .error _ => d
  | .move id srcId dstId srcIdx dstIdx ts hid =>
    match moveTask d id srcId dstId srcIdx dstIdx ts hid with
    | .ok d' => d'
    | .error _ => d

/-- All task ids referenced by the three columns, in order. -/
def allTaskIds (d : BoardDoc) : List String :=
  d.columns.todo.taskIds ++ d.columns.inprogress.taskIds ++ d.columns.done.taskIds

/-- uuid freshness of a newly generated task id: it is distinct from
every id already in the document (uuid v4 collisions are ignored). -/
def freshFor (d : BoardDoc) (fid : String) : Prop :=
  alookup d.tasks fid = none ∧ fid ∉ allTaskIds d

/-- The conditions the interface itself guarantees for an operation:
the server generates the created task's id by `uuidv4()`, so it is
fresh; every other argument is arbitrary client input. -/
def OpOk (d : BoardDoc) : Op → Prop
  | .create fid _ _ _ _ => freshFor d fid
  | _ => True

/-- A well-formed move: `sourceIndex` is a nonnegative in-range index
and the source column actually holds the moved task id there. The
drag-and-drop frontend always sends such indices; a raw API client need
not. -/
def WFOp (d : BoardDoc) : Op → Prop
  | .create fid _ _ _ _ => freshFor d fid
  | .move id srcId _ srcIdx _ _ _ =>
    ∃ (c : Column) (k : Nat), d.columns.find srcId = some c ∧
      srcIdx = (k : Int) ∧ c.taskIds.get? k = some id
  | _ => True

/-- Reachability by arbitrary interface calls (out-of-range and
mismatched move indices included). -/
def Reachable (d d' : BoardDoc) : Prop :=
  Relation.ReflTransGen (fun a b => ∃ op, OpOk a op ∧ b = applyOp a op) d d'

/-- Reachability when every move is well-formed (`WFOp`). -/
def WFReachable (d d' : BoardDoc) : Prop :=
  Relation.ReflTransGen (fun a b => ∃ op, WFOp a op ∧ b = applyOp a op) d d'

/-- In how many distinct columns a task id occurs. -/
def columnsContaining (d : BoardDoc) (tid : String) : Nat :=
  (if tid ∈ d.columns.todo.taskIds then 1 else 0) +
  (if tid ∈ d.columns.inprogress.taskIds then 1 else 0) +
  (if tid ∈ d.columns.done.taskIds then 1 else 0)

/-! ## Client store (`src/kanban-frontend/src/store.ts`), content level

The Zustand store state and the state transitions its async actions
perform, with each network response passed in as an explicit
`Except (Option String) _` value: `.error (some msg)` models a thrown
`Error` with message `msg` (e.g. `HTTP error! status: 500`),
`.error none` a thrown non-`Error` value. -/

/-- The store's state fields. -/
structure ClientState where
  boardData : Option BoardDoc
  isLoading : Bool
  error : Option String
  filter : String
deriving DecidableEq, Repr

/-- Normalization `error instanceof Error ? error.message : fallback`. -/
def normalizeErr (e : Option String) (fallback : String) : String :=
  match e with
  | some msg => msg
  | none => fallback

/-- The `fetchBoard` action: sets `isLoading=true, error=null`, then on response
either installs the fetched board or records the normalized error. -/
def fetchBoard (st : ClientState) (resp : Except (Option String) BoardDoc) :
    ClientState :=
  let st1 := { st with isLoading := true, error := none }
  match resp with
  | .ok data => { st1 with boardData := some data, isLoading := false }
  | .error e =>
    { st1 with error := some (normalizeErr e "Failed to fetch board data")
               isLoading := false }

/-- The optimistic update of `moveTask` (store.ts lines 96–120) at the
level of contents: clone the source column, alias it as the destination
when the column ids coincide, copy-and-splice both `taskIds` arrays,
rebuild the `columns` mapping. When a column id is unknown the JS code
would throw on `[...undefined]`; every claim supplies present columns,
and that branch returns the input unchanged here. -/
def optimisticMove (bd : BoardDoc) (taskId srcId dstId : String)
    (srcIdx dstIdx : Int) : BoardDoc :=
  match bd.columns.find srcId, bd.columns.find dstId with
  | some srcCol, some dstCol =>
    let srcCol' := { srcCol with
      taskIds := spliceRemoveOne srcCol.taskIds srcIdx }
    let dstCur := if dstId = srcId then srcCol' else dstCol
    let dstCol' := { dstCur with
      taskIds := spliceInsertAt dstCur.taskIds dstIdx taskId }
    { bd with columns := (bd.columns.set srcId srcCol').set dstId dstCol' }
  | _, _ => bd

/-- The state set by the catch-block of the client `moveTask` before it
re-fetches. -/
def moveFailureState (st : ClientState) (e : Option String) : ClientState :=
  { st with error := some (normalizeErr e "Failed to move task") }

/-- The whole client `moveTask` action: optimistic local update (when a
board is cached), then the network call; on success nothing further
happens, on failure the error is recorded and the board re-fetched.
Returns the final state and whether a re-fetch was performed. -/
def clientMoveTask (st : ClientState) (taskId srcId dstId : String)
    (srcIdx dstIdx : Int) (moveResp : Except (Option String) Unit)
    (fetchResp : Except (Option String) BoardDoc) : ClientState × Bool :=
  let st1 := match st.boardData with
    | some bd =>
      let bd' := optimisticMove bd taskId srcId dstId srcIdx dstIdx
      { st with boardData := some bd' }
    | none => st
  match moveResp with
  | .ok _ => (st1, false)
  | .error e => (fetchBoard (moveFailureState st1 e) fetchResp, true)

/-! ## Helper lemmas -/

theorem alookup_map_replace {κ α : Type} [DecidableEq κ]
    (l : List (κ × α)) (k : κ) (v : α) (h : (alookup l k).isSome) :
    alookup (l.map (fun p => if p.1 = k then (k, v) else p)) k = some v := by
  induction l with
  | nil => simp [alookup] at h
  | cons p ps ih =>
    by_cases hk : p.1 = k
    · simp [alookup, hk]
    · simp only [alookup, if_neg hk] at h
      simp only [List.map, alookup, if_neg hk]
      exact ih h

theorem alookup_append_right {κ α : Type} [DecidableEq κ]
    (l l' : List (κ × α)) (k : κ) (h : alookup l k = none) :
    alookup (l ++ l') k = alookup l' k := by
  induction l with
  | nil => simp
  | cons p ps ih =>
    by_cases hk : p.1 = k
    · simp [alookup, hk] at h
    · simp only [alookup, if_neg hk] at h
      simp only [List.cons_append, alookup, if_neg hk]
      exact ih h

theorem alookup_aset_self {κ α : Type} [DecidableEq κ]
    (l : List (κ × α)) (k : κ) (v : α) : alookup (aset l k v) k = some v := by
  unfold aset
  split
  · exact alookup_map_replace l k v (by assumption)
  · rename_i h
    rw [alookup_append_right l _ k (by cases hh : alookup l k <;> simp_all)]
    simp [alookup]

theorem alookup_map_replace_ne {κ α : Type} [DecidableEq κ]
    (l : List (κ × α)) (k k' : κ) (v : α) (h : k' ≠ k) :
    alookup (l.map (fun p => if p.1 = k then (k, v) else p)) k' = alookup l k' := by
  induction l with
  | nil => simp [alookup]
  | cons p ps ih =>
    by_cases hk : p.1 = k
    · have : ¬(k = k') := fun hh => h hh.symm
      simp only [List.map, if_pos hk, alookup, if_neg this, if_neg (hk ▸ this)]
      exact ih
    · simp only [List.map, if_neg hk, alookup]
      split <;> simp_all

theorem alookup_append_single_ne {κ α : Type} [DecidableEq κ]
    (l : List (κ × α)) (k k' : κ) (v : α) (h : k' ≠ k) :
    alookup (l ++ [(k, v)]) k' = alookup l k' := by
  induction l with
  | nil =>
    have h' : ¬(k = k') := fun hh => h hh.symm
    simp [alookup, h']
  | cons p ps ih =>
    by_cases hk : p.1 = k'
    · simp [alookup, hk]
    · simp only [List.cons_append, alookup, if_neg hk]
      exact ih

theorem alookup_aset_ne {κ α : Type} [DecidableEq κ]
    (l : List (κ × α)) (k k' : κ) (v : α) (h : k' ≠ k) :
    alookup (aset l k v) k' = alookup l k' := by
  unfold aset
  split
  · exact alookup_map_replace_ne l k k' v h
  · exact alookup_append_single_ne l k k' v h

theorem lookup_setTask_self (ts : List (String × Task)) (k : String) (v : Task) :
    alookup (setTask ts k v) k = some v :=
  alookup_aset_self ts k v

theorem lookup_setTask_ne (ts : List (String × Task)) (k k' : String) (v : Task)
    (h : k' ≠ k) : alookup (setTask ts k v) k' = alookup ts k' :=
  alookup_aset_ne ts k k' v h

theorem Columns.find_cases {c : Columns} {cid : String} {col : Column}
    (h : c.find cid = some col) :
    (cid = "todo" ∧ col = c.todo) ∨ (cid = "inprogress" ∧ col = c.inprogress) ∨
      (cid = "done" ∧ col = c.done) := by
  unfold Columns.find at h
  split_ifs at h <;> simp_all

theorem Columns.find_set_self {c : Columns} {cid : String} {col : Column}
    (col' : Column) (h : c.find cid = some col) :
    (c.set cid col').find cid = some col' := by
  rcases Columns.find_cases h with ⟨h1, _⟩ | ⟨h1, _⟩ | ⟨h1, _⟩ <;>
    subst h1 <;> simp [Columns.find, Columns.set]

theorem Columns.find_set_ne {c : Columns} {cid cid' : String} (col' : Column)
    (h : cid' ≠ cid) : (c.set cid col').find cid' = c.find cid' := by
  unfold Columns.find Columns.set
  split_ifs <;> simp_all [Columns.find]

/-! ## C2 -/

/-- C2 counterexample: the server's validation is `if (!title)`, which
does not trim, so `createTask` with the whitespace-only title `"   "`
succeeds and mutates the document's history (length 0 → 1), refuting
the claim that every whitespace-only title is rejected without
mutation. -/
theorem createTask_whitespace_accepted :
    (createTask (initialData "t0") "id-2" "   " none "t1" "h1").isOk = true ∧
    (applyOp (initialData "t0") (.create "id-2" "   " none "t1" "h1")).history.length = 1 ∧
    (initialData "t0").history.length = 0 := by
  refine ⟨rfl, rfl, rfl⟩

/-- C2 (amended): the server `createTask` fails with a validation error
exactly for an empty (or missing) title, leaving the persisted document
— in particular `tasks` and `history` — unchanged; a non-empty
whitespace-only title such as `"   "` is accepted, not rejected. -/
theorem createTask_validation (d : BoardDoc) (fid : String)
    (descr : Option String) (ts hid : String) :
    createTask d fid "" descr ts hid =
      .error (.badRequest "Task title is required") ∧
    applyOp d (.create fid "" descr ts hid) = d ∧
    (createTask d fid "   " descr ts hid).isOk = true := by
  refine ⟨by simp [createTask], by simp [applyOp, createTask], ?_⟩
  unfold createTask
  rw [if_neg (by decide)]
  rfl

/-! ## C9 -/

/-- C9: `updateTask` on a present task applies the provided title only
when it is non-empty (falling back to the existing title when empty or
omitted), and applies a provided description unconditionally — an
explicit empty string replaces the old description — keeping the old
description only when none is provided; the updated task is stored back
under its id. -/
theorem updateTask_field_application (d : BoardDoc) (id : String) (t : Task)
    (title descr : Option String) (ts hid : String)
    (ht : alookup d.tasks id = some t) :
    ∃ d' t', updateTask d id title descr ts hid = .ok (d', t') ∧
      alookup d'.tasks id = some t' ∧
      (∀ s, title = some s → s ≠ "" → t'.title = s) ∧
      ((title = none ∨ title = some "") → t'.title = t.title) ∧
      (∀ s, descr = some s → t'.description = s) ∧
      (descr = none → t'.description = t.description) := by
  unfold updateTask
  rw [ht]
  refine ⟨_, _, rfl, ?_, ?_, ?_, ?_, ?_⟩
  · simpa [addToHistory] using lookup_setTask_self d.tasks id _
  · rintro s rfl hs
    simp [if_neg hs]
  · rintro (rfl | rfl) <;> simp
  · rintro s rfl
    simp
  · rintro rfl
    simp

/-- C9 witness: a concrete update on the seeded document clearing the
description and keeping the empty-title fallback. -/
theorem updateTask_field_application_witness :
    ∃ d' t', updateTask (initialData "t0") "task-1" (some "") (some "") "t1" "h1" =
        .ok (d', t') ∧
      alookup d'.tasks "task-1" = some t' ∧
      (∀ s, (some "" : Option String) = some s → s ≠ "" → t'.title = s) ∧
      (((some "" : Option String) = none ∨ (some "" : Option String) = some "") →
        t'.title = "Welcome to your Kanban Board!") ∧
      (∀ s, (some "" : Option String) = some s → t'.description = s) ∧
      ((some "" : Option String) = none →
        t'.description = "Drag me to different columns or edit me by clicking!") :=
  updateTask_field_application (initialData "t0") "task-1"
    { id := "task-1", title := "Welcome to your Kanban Board!"
      description := "Drag me to different columns or edit me by clicking!"
      createdAt := "t0" }
    (some "") (some "") "t1" "h1" (by decide)

/-! ## C10 -/

/-- C10: every task created by a successful `createTask` stores a string
description: when the request omits the description (or sends a falsy
empty one) the stored value is the empty string `""`, never an absent
field, and a non-empty provided description is stored as given. -/
theorem createTask_description_default (d : BoardDoc) (fid title : String)
    (descr : Option String) (ts hid : String) (h : title ≠ "") :
    ∃ d' t, createTask d fid title descr ts hid = .ok (d', t) ∧
      alookup d'.tasks fid = some t ∧
      ((descr = none ∨ descr = some "") → t.description = "") ∧
      (∀ s, descr = some s → s ≠ "" → t.description = s) := by
  unfold createTask
  rw [if_neg h]
  refine ⟨_, _, rfl, ?_, ?_, ?_⟩
  · simpa [addToHistory] using lookup_setTask_self d.tasks fid _
  · rintro (rfl | rfl) <;> simp
  · rintro s rfl hs
    simp [if_neg hs]

/-- C10 witness: creating a task with no description on the seeded
document stores description `""`. -/
theorem createTask_description_default_witness :
    ∃ d' t, createTask (initialData "t0") "id-2" "Buy milk" none "t1" "h1" =
        .ok (d', t) ∧
      alookup d'.tasks "id-2" = some t ∧
      (((none : Option String) = none ∨ (none : Option String) = some "") →
        t.description = "") ∧
      (∀ s, (none : Option String) = some s → s ≠ "" → t.description = s) :=
  createTask_description_default (initialData "t0") "id-2" "Buy milk" none "t1" "h1"
    (by decide)

/-! ## moveTask characterization -/

theorem moveTask_ok_same (d : BoardDoc) (id cid : String) (t : Task)
    (c : Column) (srcIdx dstIdx : Int) (ts hid : String)
    (ht : alookup d.tasks id = some t)
    (hc : d.columns.find cid = some c) :
    moveTask d id cid cid srcIdx dstIdx ts hid = .ok { d with columns := (d.columns.set cid { c with taskIds := spliceRemoveOne c.taskIds srcIdx }).set cid { c with taskIds := spliceInsertAt (spliceRemoveOne c.taskIds srcIdx) dstIdx id } } := by
  unfold moveTask
  rw [ht, hc]
  simp

theorem moveTask_ok_cross (d : BoardDoc) (id srcId dstId : String) (t : Task)
    (sc dc : Column) (srcIdx dstIdx : Int) (ts hid : String)
    (hne : srcId ≠ dstId)
    (ht : alookup d.tasks id = some t)
    (hs : d.columns.find srcId = some sc)
    (hd : d.columns.find dstId = some dc) :
    moveTask d id srcId dstId srcIdx dstIdx ts hid = .ok (addToHistory { d with columns := (d.columns.set srcId { sc with taskIds := spliceRemoveOne sc.taskIds srcIdx }).set dstId { dc with taskIds := spliceInsertAt dc.taskIds dstIdx id } } hid ts ("Moved \"" ++ t.title ++ "\" from " ++ sc.title ++ " to " ++ dc.title)) := by
  unfold moveTask
  rw [ht, hs, hd]
  simp [hne, Ne.symm hne]

/-! ## C7 -/

/-- C7: a successful server `moveTask` appends exactly one history entry
`Moved "<title>" from <source title> to <dest title>` (prepending it and
keeping at most 5 entries) precisely when the source and destination
column ids differ; a within-column reorder leaves the history
untouched. -/
theorem moveTask_logging (d : BoardDoc) (id srcId dstId : String) (t : Task)
    (sc dc : Column) (srcIdx dstIdx : Int) (ts hid : String)
    (ht : alookup d.tasks id = some t)
    (hs : d.columns.find srcId = some sc)
    (hd : d.columns.find dstId = some dc) :
    ∃ d', moveTask d id srcId dstId srcIdx dstIdx ts hid = .ok d' ∧
      (srcId ≠ dstId → d'.history =
        (⟨hid, "Moved \"" ++ t.title ++ "\" from " ++ sc.title ++ " to " ++ dc.title,
          ts⟩ :: d.history).take 5) ∧
      (srcId = dstId → d'.history = d.history) := by
  by_cases h : srcId = dstId
  · subst h
    have hcc : sc = dc := by rw [hs] at hd; injection hd
    subst hcc
    rw [moveTask_ok_same d id srcId t sc srcIdx dstIdx ts hid ht hs]
    exact ⟨_, rfl, fun hne => absurd rfl hne, fun _ => rfl⟩
  · rw [moveTask_ok_cross d id srcId dstId t sc dc srcIdx dstIdx ts hid h ht hs hd]
    exact ⟨_, rfl, fun _ => rfl, fun he => absurd he h⟩

/-- C7 witness: moving the welcome task from `todo` to `done` on the
seeded document logs exactly the expected entry; the hypotheses are
discharged on the concrete document. -/
theorem moveTask_logging_witness :
    ∃ d', moveTask (initialData "t0") "task-1" "todo" "done" 0 0 "t1" "h1" = .ok d' ∧
      ("todo" ≠ "done" → d'.history =
        (⟨"h1", "Moved \"" ++ "Welcome to your Kanban Board!" ++ "\" from " ++
          "To Do" ++ " to " ++ "Done", "t1"⟩ :: (initialData "t0").history).take 5) ∧
      ("todo" = "done" → d'.history = (initialData "t0").history) :=
  moveTask_logging (initialData "t0") "task-1" "todo" "done"
    { id := "task-1", title := "Welcome to your Kanban Board!"
      description := "Drag me to different columns or edit me by clicking!"
      createdAt := "t0" }
    { id := "todo", title := "To Do", taskIds := ["task-1"] }
    { id := "done", title := "Done", taskIds := [] }
    0 0 "t1" "h1" (by decide) (by decide) (by decide)

/-! ## C4 -/

/-- The P6 fixture: a board whose `todo` column holds
`['task-1', 'task-3']`. -/
def docP6 : BoardDoc :=
  { tasks :=
      [("task-1",
        { id := "task-1", title := "Task 1", description := "", createdAt := "t0" }),
       ("task-3",
        { id := "task-3", title := "Task 3", description := "", createdAt := "t0" })]
    columns :=
      { todo := { id := "todo", title := "To Do", taskIds := ["task-1", "task-3"] }
        inprogress := { id := "inprogress", title := "In Progress", taskIds := [] }
        done := { id := "done", title := "Done", taskIds := [] } }
    columnOrder := ["todo", "inprogress", "done"]
    history := [] }

/-- C4: a same-column server move first removes the entry at
`sourceIndex` and then inserts the task id at `destIndex` interpreted
against the already-shortened list; on the fixture
`['task-1','task-3']`, moving from index 0 to index 1 yields
`['task-3','task-1']`. -/
theorem moveTask_same_column (d : BoardDoc) (id cid : String) (t : Task)
    (c : Column) (srcIdx dstIdx : Int) (ts hid : String)
    (ht : alookup d.tasks id = some t)
    (hc : d.columns.find cid = some c) :
    (∃ d', moveTask d id cid cid srcIdx dstIdx ts hid = .ok d' ∧
      d'.columns.find cid = some { c with
        taskIds := spliceInsertAt (spliceRemoveOne c.taskIds srcIdx) dstIdx id }) ∧
    (∃ d6, moveTask docP6 "task-1" "todo" "todo" 0 1 "t1" "h1" = .ok d6 ∧
      d6.columns.todo.taskIds = ["task-3", "task-1"]) := by
  constructor
  · rw [moveTask_ok_same d id cid t c srcIdx dstIdx ts hid ht hc]
    refine ⟨_, rfl, ?_⟩
    have h1 := Columns.find_set_self
      (c := d.columns) { c with taskIds := spliceRemoveOne c.taskIds srcIdx } hc
    have h2 := Columns.find_set_self
      (c := d.columns.set cid { c with taskIds := spliceRemoveOne c.taskIds srcIdx })
      { c with taskIds := spliceInsertAt (spliceRemoveOne c.taskIds srcIdx) dstIdx id }
      h1
    simpa using h2
  · exact ⟨_, rfl, rfl⟩

/-- C4 witness: a same-column move of the single seeded task from index
0 to index 0 leaves the column's list `['task-1']`. -/
theorem moveTask_same_column_witness :
    (∃ d', moveTask (initialData "t0") "task-1" "todo" "todo" 0 0 "t1" "h1" = .ok d' ∧
      d'.columns.find "todo" = some { id := "todo", title := "To Do", taskIds := spliceInsertAt (spliceRemoveOne ["task-1"] 0) 0 "task-1" }) ∧
    (∃ d6, moveTask docP6 "task-1" "todo" "todo" 0 1 "t1" "h1" = .ok d6 ∧
      d6.columns.todo.taskIds = ["task-3", "task-1"]) :=
  moveTask_same_column (initialData "t0") "task-1" "todo"
    { id := "task-1", title := "Welcome to your Kanban Board!"
      description := "Drag me to different columns or edit me by clicking!"
      createdAt := "t0" }
    { id := "todo", title := "To Do", taskIds := ["task-1"] }
    0 0 "t1" "h1" (by decide) (by decide)

/-! ## Equations for a single operation -/

theorem applyOp_create_ok (d : BoardDoc) (fid title : String)
    (descr : Option String) (ts hid : String) (h : title ≠ "") :
    applyOp d (.create fid title descr ts hid) = addToHistory { d with tasks := setTask d.tasks fid { id := fid, title := title, description := (match descr with | none => "" | some s => if s = "" then "" else s), createdAt := ts }, columns := { d.columns with todo := { d.columns.todo with taskIds := d.columns.todo.taskIds ++ [fid] } } } hid ts ("Created task: \"" ++ title ++ "\"") := by
  simp only [applyOp]
  unfold createTask
  rw [if_neg h]

theorem applyOp_update_ok (d : BoardDoc) (id : String) (t : Task)
    (title descr : Option String) (ts hid : String)
    (hl : alookup d.tasks id = some t) :
    applyOp d (.update id title descr ts hid) = addToHistory { d with tasks := setTask d.tasks id { t with title := (match title with | none => t.title | some s => if s = "" then t.title else s), description := (match descr with | none => t.description | some s => s) } } hid ts ("Updated task: \"" ++ t.title ++ "\" → \"" ++ (match title with | none => t.title | some s => if s = "" then t.title else s) ++ "\"") := by
  simp only [applyOp]
  unfold updateTask
  rw [hl]

theorem applyOp_delete_ok (d : BoardDoc) (id : String) (t : Task)
    (ts hid : String) (hl : alookup d.tasks id = some t) :
    applyOp d (.delete id ts hid) = addToHistory { d with tasks := d.tasks.filter (fun p => p.1 ≠ id), columns := { todo := removeFromColumn d.columns.todo id, inprogress := removeFromColumn d.columns.inprogress id, done := removeFromColumn d.columns.done id } } hid ts ("Deleted task: \"" ++ t.title ++ "\"") := by
  simp only [applyOp]
  unfold deleteTask
  rw [hl]

theorem applyOp_move_same (d : BoardDoc) (id cid : String) (t : Task)
    (c : Column) (srcIdx dstIdx : Int) (ts hid : String)
    (ht : alookup d.tasks id = some t)
    (hc : d.columns.find cid = some c) :
    applyOp d (.move id cid cid srcIdx dstIdx ts hid) = { d with columns := (d.columns.set cid { c with taskIds := spliceRemoveOne c.taskIds srcIdx }).set cid { c with taskIds := spliceInsertAt (spliceRemoveOne c.taskIds srcIdx) dstIdx id } } := by
  simp only [applyOp]
  rw [moveTask_ok_same d id cid t c srcIdx dstIdx ts hid ht hc]

theorem applyOp_move_cross (d : BoardDoc) (id srcId dstId : String) (t : Task)
    (sc dc : Column) (srcIdx dstIdx : Int) (ts hid : String)
    (hne : srcId ≠ dstId)
    (ht : alookup d.tasks id = some t)
    (hs : d.columns.find srcId = some sc)
    (hd : d.columns.find dstId = some dc) :
    applyOp d (.move id srcId dstId srcIdx dstIdx ts hid) = addToHistory { d with columns := (d.columns.set srcId { sc with taskIds := spliceRemoveOne sc.taskIds srcIdx }).set dstId { dc with taskIds := spliceInsertAt dc.taskIds dstIdx id } } hid ts ("Moved \"" ++ t.title ++ "\" from " ++ sc.title ++ " to " ++ dc.title) := by
  simp only [applyOp]
  rw [moveTask_ok_cross d id srcId dstId t sc dc srcIdx dstIdx ts hid hne ht hs hd]

/-! ## Shape of a single operation -/

theorem applyOp_shape (d : BoardDoc) (op : Op) :
    applyOp d op = d ∨
    (∃ ts' c', applyOp d op = { d with tasks := ts', columns := c' }) ∨
    (∃ ts' c' hid tstamp action,
      applyOp d op = addToHistory { d with tasks := ts', columns := c' } hid tstamp action) := by
  cases op with
  | create fid title descr ts hid =>
    by_cases h : title = ""
    · left
      simp [applyOp, createTask, h]
    · right; right
      exact ⟨_, _, hid, ts, _, applyOp_create_ok d fid title descr ts hid h⟩
  | update id title descr ts hid =>
    cases hl : alookup d.tasks id with
    | none =>
      left
      simp [applyOp, updateTask, hl]
    | some t =>
      right; right
      exact ⟨_, d.columns, hid, ts, _, applyOp_update_ok d id t title descr ts hid hl⟩
  | delete id ts hid =>
    cases hl : alookup d.tasks id with
    | none =>
      left
      simp [applyOp, deleteTask, hl]
    | some t =>
      right; right
      exact ⟨_, _, hid, ts, _, applyOp_delete_ok d id t ts hid hl⟩
  | move id srcId dstId srcIdx dstIdx ts hid =>
    cases hl : alookup d.tasks id with
    | none =>
      left
      simp [applyOp, moveTask, hl]
    | some t =>
      cases hs : d.columns.find srcId with
      | none =>
        left
        cases hd : d.columns.find dstId with
        | none => simp [applyOp, moveTask, hl, hs, hd]
        | some dc => simp [applyOp, moveTask, hl, hs, hd]
      | some sc =>
        cases hd : d.columns.find dstId with
        | none =>
          left
          simp [applyOp, moveTask, hl, hs, hd]
        | some dc =>
          by_cases hne : srcId = dstId
          · right; left
            subst hne
            have hcc : sc = dc := by rw [hs] at hd; injection hd
            subst hcc
            exact ⟨d.tasks, _,
              applyOp_move_same d id srcId t sc srcIdx dstIdx ts hid hl hs⟩
          · right; right
            exact ⟨d.tasks, _, hid, ts, _,
              applyOp_move_cross d id srcId dstId t sc dc srcIdx dstIdx ts hid hne hl hs hd⟩

theorem applyOp_columnOrder (d : BoardDoc) (op : Op) :
    (applyOp d op).columnOrder = d.columnOrder := by
  rcases applyOp_shape d op with h | ⟨ts', c', h⟩ | ⟨ts', c', hid, tstamp, action, h⟩ <;>
    simp [h, addToHistory]

theorem applyOp_history_shape (d : BoardDoc) (op : Op) :
    (applyOp d op).history = d.history ∨
    ∃ e, (applyOp d op).history = (e :: d.history).take 5 := by
  rcases applyOp_shape d op with h | ⟨ts', c', h⟩ | ⟨ts', c', hid, tstamp, action, h⟩
  · left; rw [h]
  · left; rw [h]
  · right
    exact ⟨⟨hid, action, tstamp⟩, by rw [h]; rfl⟩

theorem Reachable_columnOrder {ts0 : String} {d : BoardDoc}
    (h : Reachable (initialData ts0) d) :
    d.columnOrder = ["todo", "inprogress", "done"] := by
  unfold Reachable at h
  induction h with
  | refl => rfl
  | tail _ h2 ih =>
    obtain ⟨op, _, rfl⟩ := h2
    rw [applyOp_columnOrder]
    exact ih

/-! ## C3 -/

/-- C3: on any document reachable from the seed, a successful
`createTask` with a non-empty title and a fresh uuid allocates a task id
not yet in `tasks`, stores the new task under it, appends the id at the
end of the `taskIds` of the column that is first in `columnOrder`
(always `todo`), and leaves every other column's entry unchanged. -/
theorem createTask_appends_first_column (ts0 : String) (d : BoardDoc)
    (hreach : Reachable (initialData ts0) d) (fid title : String)
    (descr : Option String) (cts hid : String)
    (hne : title ≠ "") (hfresh : freshFor d fid) :
    alookup d.tasks fid = none ∧
    d.columnOrder.head? = some "todo" ∧
    ∃ d' t, createTask d fid title descr cts hid = .ok (d', t) ∧
      t.id = fid ∧ t.title = title ∧
      alookup d'.tasks fid = some t ∧
      (∃ c₀, d.columns.find "todo" = some c₀ ∧
        d'.columns.find "todo" = some { c₀ with taskIds := c₀.taskIds ++ [fid] }) ∧
      (∀ cid, cid ≠ "todo" → d'.columns.find cid = d.columns.find cid) := by
  have hco := Reachable_columnOrder hreach
  refine ⟨hfresh.1, by rw [hco]; rfl, ?_⟩
  unfold createTask
  rw [if_neg hne]
  refine ⟨_, _, rfl, rfl, rfl, ?_, ?_, ?_⟩
  · simpa [addToHistory] using lookup_setTask_self d.tasks fid _
  · refine ⟨d.columns.todo, rfl, ?_⟩
    simp [Columns.find, addToHistory]
  · intro cid hcid
    simp [Columns.find, addToHistory, hcid]

/-- C3 witness: creating `Buy milk` with the fresh id `id-2` on the
seeded document. -/
theorem createTask_appends_first_column_witness :
    alookup (initialData "t0").tasks "id-2" = none ∧
    (initialData "t0").columnOrder.head? = some "todo" ∧
    ∃ d' t, createTask (initialData "t0") "id-2" "Buy milk" none "t1" "h1" = .ok (d', t) ∧
      t.id = "id-2" ∧ t.title = "Buy milk" ∧
      alookup d'.tasks "id-2" = some t ∧
      (∃ c₀, (initialData "t0").columns.find "todo" = some c₀ ∧
        d'.columns.find "todo" = some { c₀ with taskIds := c₀.taskIds ++ ["id-2"] }) ∧
      (∀ cid, cid ≠ "todo" →
        d'.columns.find cid = (initialData "t0").columns.find cid) :=
  createTask_appends_first_column "t0" (initialData "t0") Relation.ReflTransGen.refl
    "id-2" "Buy milk" none "t1" "h1" (by decide) ⟨by decide, by decide⟩

/-! ## C8 -/

/-- The document after a whole sequence of interface calls. -/
def applyOps (d : BoardDoc) (ops : List Op) : BoardDoc :=
  ops.foldl applyOp d

/-- C8: starting from any document whose history has at most 5 entries,
any sequence of operations keeps `history.length ≤ 5`; moreover each
single operation either leaves the history unchanged or prepends
exactly one new entry, dropping anything beyond the 5 newest (so the
list stays ordered newest-first). -/
theorem history_bound (d : BoardDoc) (ops : List Op)
    (h : d.history.length ≤ 5) :
    (applyOps d ops).history.length ≤ 5 ∧
    ∀ (d₀ : BoardDoc) (op : Op), (applyOp d₀ op).history = d₀.history ∨
      ∃ e, (applyOp d₀ op).history = (e :: d₀.history).take 5 := by
  refine ⟨?_, fun d₀ op => applyOp_history_shape d₀ op⟩
  induction ops generalizing d with
  | nil => exact h
  | cons op ops ih =>
    apply ih
    rcases applyOp_history_shape d op with hh | ⟨e, hh⟩
    · rw [hh]; exact h
    · rw [hh, List.length_take]
      exact min_le_left _ _

/-- C8 witness: a create followed by a cross-column move on the seeded
document keeps the history within the bound. -/
theorem history_bound_witness :
    (applyOps (initialData "t0")
      [Op.create "id-2" "Buy milk" none "t1" "h1",
       Op.move "task-1" "todo" "done" 0 0 "t2" "h2"]).history.length ≤ 5 ∧
    ∀ (d₀ : BoardDoc) (op : Op), (applyOp d₀ op).history = d₀.history ∨
      ∃ e, (applyOp d₀ op).history = (e :: d₀.history).take 5 :=
  history_bound (initialData "t0")
    [Op.create "id-2" "Buy milk" none "t1" "h1",
     Op.move "task-1" "todo" "done" 0 0 "t2" "h2"] (by decide)

/-! ## C1: membership invariant -/

theorem count_spliceInsertAt (l : List String) (i : Int) (x y : String) :
    (spliceInsertAt l i x).count y = (if x = y then 1 else 0) + l.count y := by
  unfold spliceInsertAt
  rw [List.count_append, List.count_cons]
  conv_rhs => rw [← List.take_append_drop (spliceStart l.length i) l, List.count_append]
  by_cases h : x = y <;> simp [h] <;> omega

theorem count_spliceRemoveOne (l : List String) (k : Nat) (x y : String)
    (hk : l.get? k = some x) :
    l.count y = (spliceRemoveOne l (k : Int)).count y + (if x = y then 1 else 0) := by
  have hklen : k < l.length := by
    by_contra hh
    rw [List.get?_eq_none.mpr (by omega)] at hk
    exact Option.noConfusion hk
  have hget : l[k] = x := by
    have := List.get?_eq_getElem? l k
    rw [this, List.getElem?_eq_getElem hklen] at hk
    injection hk
  have hs : spliceStart l.length (k : Int) = k := by
    unfold spliceStart
    rw [if_neg (by omega)]
    simp [min_eq_left (le_of_lt hklen)]
  unfold spliceRemoveOne
  rw [hs, List.count_append]
  conv_lhs => rw [← List.take_append_drop k l, List.count_append,
    List.drop_eq_getElem_cons hklen, hget, List.count_cons]
  by_cases h : x = y <;> simp [h] <;> omega

theorem count_allTaskIds_move_same (d : BoardDoc) (cid : String) (c : Column)
    (id a : String) (dstIdx : Int) (k : Nat)
    (hc : d.columns.find cid = some c)
    (hget : c.taskIds.get? k = some id) :
    (allTaskIds { d with columns := (d.columns.set cid { c with taskIds := spliceRemoveOne c.taskIds (k : Int) }).set cid { c with taskIds := spliceInsertAt (spliceRemoveOne c.taskIds (k : Int)) dstIdx id } }).count a = (allTaskIds d).count a := by
  have hrem := count_spliceRemoveOne c.taskIds k id a hget
  have hins := count_spliceInsertAt (spliceRemoveOne c.taskIds (k : Int)) dstIdx id a
  rcases Columns.find_cases hc with ⟨h1, h2⟩ | ⟨h1, h2⟩ | ⟨h1, h2⟩ <;> subst h1 <;> subst h2 <;>
    (simp [Columns.set, allTaskIds, List.count_append]; omega)

theorem count_allTaskIds_move_cross (d : BoardDoc) (srcId dstId : String)
    (sc dc : Column) (id a : String) (dstIdx : Int) (k : Nat)
    (hs : d.columns.find srcId = some sc)
    (hd : d.columns.find dstId = some dc)
    (hne : srcId ≠ dstId)
    (hget : sc.taskIds.get? k = some id) :
    (allTaskIds { d with columns := (d.columns.set srcId { sc with taskIds := spliceRemoveOne sc.taskIds (k : Int) }).set dstId { dc with taskIds := spliceInsertAt dc.taskIds dstIdx id } }).count a = (allTaskIds d).count a := by
  have hrem := count_spliceRemoveOne sc.taskIds k id a hget
  have hins := count_spliceInsertAt dc.taskIds dstIdx id a
  rcases Columns.find_cases hs with ⟨h1, h2⟩ | ⟨h1, h2⟩ | ⟨h1, h2⟩ <;>
    rcases Columns.find_cases hd with ⟨g1, g2⟩ | ⟨g1, g2⟩ | ⟨g1, g2⟩ <;>
      subst h1 <;> subst g1 <;>
        first
          | exact absurd rfl hne
          | (subst h2; subst g2; simp [Columns.set, allTaskIds, List.count_append]; omega)


def MembershipInv (d : BoardDoc) : Prop := (allTaskIds d).Nodup

theorem allTaskIds_addToHistory (d : BoardDoc) (hid ts action : String) :
    allTaskIds (addToHistory d hid ts action) = allTaskIds d := rfl

theorem membershipInv_initial (ts : String) : MembershipInv (initialData ts) := by
  simp [MembershipInv, allTaskIds, initialData]

theorem membershipInv_applyOp (d : BoardDoc) (op : Op) (hwf : WFOp d op)
    (hinv : MembershipInv d) : MembershipInv (applyOp d op) := by
  cases op with
  | create fid title descr ts hid =>
    by_cases h : title = ""
    · simpa [applyOp, createTask, h] using hinv
    · rw [applyOp_create_ok d fid title descr ts hid h]
      obtain ⟨-, hnotin⟩ := hwf
      unfold allTaskIds at hnotin
      unfold MembershipInv at hinv ⊢
      rw [allTaskIds_addToHistory]
      unfold allTaskIds at hinv ⊢
      rw [List.nodup_iff_count_le_one] at hinv ⊢
      intro a
      have h1 := hinv a
      by_cases ha : a = fid
      · subst ha
        have h0 : List.count a (d.columns.todo.taskIds ++ d.columns.inprogress.taskIds ++ d.columns.done.taskIds) = 0 := by
          rw [List.count_eq_zero]
          exact hnotin
        simp [List.count_append, List.count_cons, List.count_singleton'] at h0 h1 ⊢
        omega
      · have hne : ¬(fid = a) := fun hh => ha hh.symm
        simp [List.count_append, List.count_cons, List.count_singleton', hne, ha] at h1 ⊢
        omega
  | update id title descr ts hid =>
    cases hl : alookup d.tasks id with
    | none => simpa [applyOp, updateTask, hl] using hinv
    | some t =>
      rw [applyOp_update_ok d id t title descr ts hid hl]
      simpa [MembershipInv, allTaskIds, addToHistory] using hinv
  | delete id ts hid =>
    cases hl : alookup d.tasks id with
    | none => simpa [applyOp, deleteTask, hl] using hinv
    | some t =>
      rw [applyOp_delete_ok d id t ts hid hl]
      unfold MembershipInv at hinv ⊢
      rw [allTaskIds_addToHistory]
      unfold allTaskIds at hinv ⊢
      refine List.Nodup.sublist ?_ hinv
      exact List.Sublist.append
        (List.Sublist.append (List.filter_sublist _) (List.filter_sublist _))
        (List.filter_sublist _)
  | move id srcId dstId srcIdx dstIdx ts hid =>
    obtain ⟨c, k, hfind, hidx, hget⟩ := hwf
    subst hidx
    cases hl : alookup d.tasks id with
    | none => simpa [applyOp, moveTask, hl] using hinv
    | some t =>
      cases hd : d.columns.find dstId with
      | none => simpa [applyOp, moveTask, hl, hfind, hd] using hinv
      | some dc =>
        by_cases hne : srcId = dstId
        · subst hne
          have hcc : c = dc := by rw [hfind] at hd; injection hd
          subst hcc
          rw [applyOp_move_same d id srcId t c (k : Int) dstIdx ts hid hl hfind]
          unfold MembershipInv at hinv ⊢
          rw [List.nodup_iff_count_le_one] at hinv ⊢
          intro a
          rw [count_allTaskIds_move_same d srcId c id a dstIdx k hfind hget]
          exact hinv a
        · rw [applyOp_move_cross d id srcId dstId t c dc (k : Int) dstIdx ts hid hne hl hfind hd]
          unfold MembershipInv at hinv ⊢
          rw [allTaskIds_addToHistory]
          rw [List.nodup_iff_count_le_one] at hinv ⊢
          intro a
          rw [count_allTaskIds_move_cross d srcId dstId c dc id a dstIdx k hfind hd hne hget]
          exact hinv a

theorem membershipInv_wfReachable {ts0 : String} {d : BoardDoc}
    (h : WFReachable (initialData ts0) d) : MembershipInv d := by
  unfold WFReachable at h
  induction h with
  | refl => exact membershipInv_initial ts0
  | tail _ h2 ih =>
    obtain ⟨op, hwf, rfl⟩ := h2
    exact membershipInv_applyOp _ op hwf ih

/-- C1 counterexample: the move endpoint never checks that the moved id
is really at `sourceIndex` of the source column; from the seeded
document the single admissible call
`moveTask('task-1', 'inprogress', 'done', 0, 0)` (an index into the
empty `inprogress` column) removes nothing and inserts `task-1` into
`done`, after which `task-1` is referenced by two columns — refuting
the membership invariant for arbitrary interface arguments. -/
theorem membership_counterexample :
    Reachable (initialData "t0")
      (applyOp (initialData "t0") (.move "task-1" "inprogress" "done" 0 0 "t1" "h1")) ∧
    columnsContaining
      (applyOp (initialData "t0") (.move "task-1" "inprogress" "done" 0 0 "t1" "h1"))
      "task-1" = 2 :=
  ⟨Relation.ReflTransGen.single ⟨.move "task-1" "inprogress" "done" 0 0 "t1" "h1", trivial, rfl⟩,
   by decide⟩

/-- C1 (amended): restricted to well-formed moves — `sourceIndex` a
nonnegative in-range index of the source column holding exactly the
moved task id, as the drag-and-drop client always sends — every
document reachable from the seed references each task id in at most one
column; with arbitrary out-of-range or mismatched move arguments the
invariant fails (see the counterexample). -/
theorem membership_invariant_wf (ts0 : String) (d : BoardDoc)
    (h : WFReachable (initialData ts0) d) (tid : String) :
    columnsContaining d tid ≤ 1 := by
  have hinv := membershipInv_wfReachable h
  unfold MembershipInv at hinv
  rw [List.nodup_iff_count_le_one] at hinv
  have hc := hinv tid
  unfold allTaskIds at hc
  rw [List.count_append, List.count_append] at hc
  unfold columnsContaining
  have e1 : (if tid ∈ d.columns.todo.taskIds then 1 else 0) ≤ List.count tid d.columns.todo.taskIds := by
    split
    · rename_i hm
      exact List.count_pos_iff.mpr hm
    · exact Nat.zero_le _
  have e2 : (if tid ∈ d.columns.inprogress.taskIds then 1 else 0) ≤ List.count tid d.columns.inprogress.taskIds := by
    split
    · rename_i hm
      exact List.count_pos_iff.mpr hm
    · exact Nat.zero_le _
  have e3 : (if tid ∈ d.columns.done.taskIds then 1 else 0) ≤ List.count tid d.columns.done.taskIds := by
    split
    · rename_i hm
      exact List.count_pos_iff.mpr hm
    · exact Nat.zero_le _
  omega

/-- C1 witness for the amended invariant: the seed itself. -/
theorem membership_invariant_wf_witness :
    columnsContaining (initialData "t0") "task-1" ≤ 1 :=
  membership_invariant_wf "t0" (initialData "t0") Relation.ReflTransGen.refl "task-1"

/-! ## C6 -/

/-- C6: when the remote move request succeeds the client performs no
re-fetch and keeps the optimistically updated board; when it fails the
client stores the normalized error message and re-fetches the whole
board, so that (with the re-fetch answered by the server's
authoritative board) the final `boardData` is the server state, not the
optimistic guess. -/
theorem clientMoveTask_confirm_rollback (st : ClientState)
    (bd serverBoard : BoardDoc) (taskId srcId dstId : String)
    (srcIdx dstIdx : Int) (e : Option String)
    (fetchResp : Except (Option String) BoardDoc)
    (hbd : st.boardData = some bd) :
    (∀ u, clientMoveTask st taskId srcId dstId srcIdx dstIdx (.ok u) fetchResp =
      ({ st with boardData := some (optimisticMove bd taskId srcId dstId srcIdx dstIdx) }, false)) ∧
    (clientMoveTask st taskId srcId dstId srcIdx dstIdx (.error e) fetchResp =
      (fetchBoard (moveFailureState { st with boardData := some (optimisticMove bd taskId srcId dstId srcIdx dstIdx) } e) fetchResp, true)) ∧
    ((moveFailureState { st with boardData := some (optimisticMove bd taskId srcId dstId srcIdx dstIdx) } e).error =
      some (normalizeErr e "Failed to move task")) ∧
    ((clientMoveTask st taskId srcId dstId srcIdx dstIdx (.error e) (.ok serverBoard)).1.boardData = some serverBoard) := by
  refine ⟨fun u => ?_, ?_, rfl, ?_⟩ <;>
    simp [clientMoveTask, hbd, fetchBoard, moveFailureState]

/-- C6 witness: concrete success and failure runs on the seeded board
with an HTTP 500 failure message. -/
theorem clientMoveTask_confirm_rollback_witness :
    (∀ u, clientMoveTask ⟨some (initialData "t0"), false, none, ""⟩ "task-1" "todo" "done" 0 0 (.ok u) (.ok (initialData "t9")) =
      ({ (⟨some (initialData "t0"), false, none, ""⟩ : ClientState) with boardData := some (optimisticMove (initialData "t0") "task-1" "todo" "done" 0 0) }, false)) ∧
    (clientMoveTask ⟨some (initialData "t0"), false, none, ""⟩ "task-1" "todo" "done" 0 0 (.error (some "HTTP error! status: 500")) (.ok (initialData "t9")) =
      (fetchBoard (moveFailureState { (⟨some (initialData "t0"), false, none, ""⟩ : ClientState) with boardData := some (optimisticMove (initialData "t0") "task-1" "todo" "done" 0 0) } (some "HTTP error! status: 500")) (.ok (initialData "t9")), true)) ∧
    ((moveFailureState { (⟨some (initialData "t0"), false, none, ""⟩ : ClientState) with boardData := some (optimisticMove (initialData "t0") "task-1" "todo" "done" 0 0) } (some "HTTP error! status: 500")).error =
      some (normalizeErr (some "HTTP error! status: 500") "Failed to move task")) ∧
    ((clientMoveTask ⟨some (initialData "t0"), false, none, ""⟩ "task-1" "todo" "done" 0 0 (.error (some "HTTP error! status: 500")) (.ok (initialData "t9"))).1.boardData = some (initialData "t9")) :=
  clientMoveTask_confirm_rollback ⟨some (initialData "t0"), false, none, ""⟩
    (initialData "t0") (initialData "t9") "task-1" "todo" "done" 0 0
    (some "HTTP error! status: 500") (.ok (initialData "t9")) rfl

/-! ## C5: object-identity model of the optimistic move

The referential non-mutation property is about JS object identity, so
the optimistic update of the client `moveTask` (store.ts lines 96–119)
is embedded a second time over an explicit object heap: string arrays,
column objects and the `columns` mapping live at numeric references,
an object spread of an existing object allocates a fresh reference, and `splice`
mutates in place at a reference. The fields of `boardData` other than
`columns` are copied by reference by the spread and never touched by
this code path, so only the reference to the columns mapping is
tracked. -/

/-- A column object; `taskIds` is a reference to an array object. -/
structure ColumnObj where
  id : String
  title : String
  taskIds : Nat
deriving DecidableEq, Repr

/-- The object heap: string arrays, column objects, and
columns-mappings (column id → column-object reference), each stored at
a numeric reference; `next` is the next free reference. -/
structure Heap where
  arrs : List (Nat × List String)
  cols : List (Nat × ColumnObj)
  maps : List (Nat × List (String × Nat))
  next : Nat
deriving DecidableEq, Repr

/-- The part of the client `boardData` object the optimistic move
touches: the reference to its `columns` mapping. -/
structure BoardDataObj where
  columnsRef : Nat
deriving DecidableEq, Repr

/-- Every reference the heap stores (keys, and references held in
column objects and mappings) is allocated, i.e. below `next`. -/
def Heap.WF (h : Heap) : Prop :=
  (∀ p ∈ h.arrs, p.1 < h.next) ∧
  (∀ p ∈ h.cols, p.1 < h.next ∧ p.2.taskIds < h.next) ∧
  (∀ p ∈ h.maps, p.1 < h.next ∧ ∀ q ∈ p.2, q.2 < h.next)

/-- The heap-level optimistic update of `moveTask`, one JS statement at
a time: clone the source column object; alias it as the destination
when the column ids coincide, otherwise clone the destination; replace
each clone's `taskIds` with a fresh copied array; splice the copies in
place; allocate the new columns mapping with the two clones installed.
Unknown references (impossible under the claims' hypotheses) return
the input unchanged. -/
def optimisticMoveHeap (h : Heap) (bd : BoardDataObj)
    (taskId srcId dstId : String) (srcIdx dstIdx : Int) : Heap × BoardDataObj :=
  match alookup h.maps bd.columnsRef with
  | none => (h, bd)
  | some m =>
  match alookup m srcId, alookup m dstId with
  | some rs, some rd =>
    (match alookup h.cols rs, alookup h.cols rd with
     | some os, some od =>
       (match alookup h.arrs os.taskIds, alookup h.arrs od.taskIds with
        | some la, some ld =>
          let rs' := h.next
          let h1 : Heap := { h with cols := h.cols ++ [(rs', os)], next := h.next + 1 }
          let rd' := if dstId = srcId then rs' else h1.next
          let h2 : Heap := if dstId = srcId then h1 else
            { h1 with cols := h1.cols ++ [(h1.next, od)], next := h1.next + 1 }
          let a1 := h2.next
          let h3 : Heap := { h2 with arrs := h2.arrs ++ [(a1, la)], cols := aset h2.cols rs' { os with taskIds := a1 }, next := h2.next + 1 }
          let h4 : Heap := { h3 with arrs := aset h3.arrs a1 (spliceRemoveOne la srcIdx) }
          let curArr := if dstId = srcId then spliceRemoveOne la srcIdx else ld
          let curObj : ColumnObj := if dstId = srcId then { os with taskIds := a1 } else od
          let a2 := h4.next
          let h5 : Heap := { h4 with arrs := h4.arrs ++ [(a2, curArr)], cols := aset h4.cols rd' { curObj with taskIds := a2 }, next := h4.next + 1 }
          let h6 : Heap := { h5 with arrs := aset h5.arrs a2 (spliceInsertAt curArr dstIdx taskId) }
          let m' := aset (aset m srcId rs') dstId rd'
          let rm := h6.next
          let h7 : Heap := { h6 with maps := h6.maps ++ [(rm, m')], next := h6.next + 1 }
          (h7, ⟨rm⟩)
        | _, _ => (h, bd))
     | _, _ => (h, bd))
  | _, _ => (h, bd)

/-- Unfolding of `optimisticMoveHeap` for a cross-column move. -/
theorem optimisticMoveHeap_cross (h : Heap) (bd : BoardDataObj)
    (m : List (String × Nat)) (rs rd : Nat) (os od : ColumnObj)
    (la ld : List String) (taskId srcId dstId : String) (srcIdx dstIdx : Int)
    (hne : dstId ≠ srcId)
    (hm : alookup h.maps bd.columnsRef = some m)
    (hrs : alookup m srcId = some rs)
    (hrd : alookup m dstId = some rd)
    (hos : alookup h.cols rs = some os)
    (hod : alookup h.cols rd = some od)
    (hla : alookup h.arrs os.taskIds = some la)
    (hld : alookup h.arrs od.taskIds = some ld) :
    optimisticMoveHeap h bd taskId srcId dstId srcIdx dstIdx =
      ({ arrs := aset (aset (h.arrs ++ [(h.next + 2, la)]) (h.next + 2) (spliceRemoveOne la srcIdx) ++ [(h.next + 3, ld)]) (h.next + 3) (spliceInsertAt ld dstIdx taskId),
         cols := aset (aset (h.cols ++ [(h.next, os)] ++ [(h.next + 1, od)]) h.next { os with taskIds := h.next + 2 }) (h.next + 1) { od with taskIds := h.next + 3 },
         maps := h.maps ++ [(h.next + 4, aset (aset m srcId h.next) dstId (h.next + 1))],
         next := h.next + 5 }, ⟨h.next + 4⟩) := by
  unfold optimisticMoveHeap
  simp only [hm, hrs, hrd, hos, hod, hla, hld]
  simp [hne]

/-- Unfolding of `optimisticMoveHeap` for a same-column move. -/
theorem optimisticMoveHeap_same (h : Heap) (bd : BoardDataObj)
    (m : List (String × Nat)) (rs : Nat) (os : ColumnObj)
    (la : List String) (taskId cid : String) (srcIdx dstIdx : Int)
    (hm : alookup h.maps bd.columnsRef = some m)
    (hrs : alookup m cid = some rs)
    (hos : alookup h.cols rs = some os)
    (hla : alookup h.arrs os.taskIds = some la) :
    optimisticMoveHeap h bd taskId cid cid srcIdx dstIdx =
      ({ arrs := aset (aset (h.arrs ++ [(h.next + 1, la)]) (h.next + 1) (spliceRemoveOne la srcIdx) ++ [(h.next + 2, spliceRemoveOne la srcIdx)]) (h.next + 2) (spliceInsertAt (spliceRemoveOne la srcIdx) dstIdx taskId),
         cols := aset (aset (h.cols ++ [(h.next, os)]) h.next { os with taskIds := h.next + 1 }) h.next { os with taskIds := h.next + 2 },
         maps := h.maps ++ [(h.next + 3, aset (aset m cid h.next) cid h.next)],
         next := h.next + 4 }, ⟨h.next + 3⟩) := by
  unfold optimisticMoveHeap
  simp only [hm, hrs, hos, hla]
  simp

theorem alookup_mem {κ α : Type} [DecidableEq κ] {l : List (κ × α)} {k : κ} {v : α}
    (h : alookup l k = some v) : (k, v) ∈ l := by
  induction l with
  | nil => simp [alookup] at h
  | cons p ps ih =>
    obtain ⟨a, b⟩ := p
    by_cases hk : a = k
    · simp only [alookup] at h
      rw [if_pos hk] at h
      injection h with h
      subst hk
      subst h
      exact List.mem_cons_self _ _
    · simp only [alookup] at h
      rw [if_neg hk] at h
      exact List.mem_cons_of_mem _ (ih h)

theorem alookup_eq_none_of_lt {α : Type} (l : List (Nat × α)) (n : Nat)
    (hb : ∀ p ∈ l, p.1 < n) (k : Nat) (hk : n ≤ k) : alookup l k = none := by
  induction l with
  | nil => rfl
  | cons p ps ih =>
    have hp := hb p (List.mem_cons_self _ _)
    have hne : ¬(p.1 = k) := by omega
    simp only [alookup]
    rw [if_neg hne]
    exact ih (fun q hq => hb q (List.mem_cons_of_mem _ hq))

theorem alookup_append_self_of_ne {α : Type} (l : List (Nat × α)) (n : Nat) (v : α)
    (hb : ∀ p ∈ l, p.1 ≠ n) : alookup (l ++ [(n, v)]) n = some v := by
  have hnone : alookup l n = none := by
    induction l with
    | nil => rfl
    | cons p ps ih =>
      simp only [alookup]
      rw [if_neg (hb p (List.mem_cons_self _ _))]
      exact ih (fun q hq => hb q (List.mem_cons_of_mem _ hq))
  rw [alookup_append_right l _ n hnone]
  simp [alookup]

/-- C5: for a present client board with both columns and their arrays
allocated on a well-formed heap, the optimistic update of `moveTask`
installs a new columns mapping whose entries for the source and
destination columns are freshly allocated objects — reference-unequal
to the input column objects — and leaves every previously allocated
object untouched: the old `boardData`'s columns mapping still holds its
old entries, and every column object and `taskIds` array it references
reads back unchanged. -/
theorem optimisticMoveHeap_identity (h : Heap) (bd : BoardDataObj)
    (m : List (String × Nat)) (rs rd : Nat) (os od : ColumnObj)
    (la ld : List String) (taskId srcId dstId : String) (srcIdx dstIdx : Int)
    (hwf : h.WF)
    (hm : alookup h.maps bd.columnsRef = some m)
    (hrs : alookup m srcId = some rs)
    (hrd : alookup m dstId = some rd)
    (hos : alookup h.cols rs = some os)
    (hod : alookup h.cols rd = some od)
    (hla : alookup h.arrs os.taskIds = some la)
    (hld : alookup h.arrs od.taskIds = some ld) :
    ∃ m' rs' rd',
      alookup (optimisticMoveHeap h bd taskId srcId dstId srcIdx dstIdx).1.maps (optimisticMoveHeap h bd taskId srcId dstId srcIdx dstIdx).2.columnsRef = some m' ∧
      alookup m' srcId = some rs' ∧ rs' ≠ rs ∧
      alookup m' dstId = some rd' ∧ rd' ≠ rd ∧
      alookup (optimisticMoveHeap h bd taskId srcId dstId srcIdx dstIdx).1.maps bd.columnsRef = some m ∧
      (∀ r, r < h.next → alookup (optimisticMoveHeap h bd taskId srcId dstId srcIdx dstIdx).1.cols r = alookup h.cols r) ∧
      (∀ r, r < h.next → alookup (optimisticMoveHeap h bd taskId srcId dstId srcIdx dstIdx).1.arrs r = alookup h.arrs r) ∧
      (∀ r, r < h.next → alookup (optimisticMoveHeap h bd taskId srcId dstId srcIdx dstIdx).1.maps r = alookup h.maps r) ∧
      (∀ cid0 r, alookup m cid0 = some r → alookup (optimisticMoveHeap h bd taskId srcId dstId srcIdx dstIdx).1.cols r = alookup h.cols r) ∧
      (∀ cid0 r o, alookup m cid0 = some r → alookup h.cols r = some o → alookup (optimisticMoveHeap h bd taskId srcId dstId srcIdx dstIdx).1.arrs o.taskIds = alookup h.arrs o.taskIds) := by
  obtain ⟨hwa, hwc, hwm⟩ := hwf
  have hmm := hwm _ (alookup_mem hm)
  have hbcr : bd.columnsRef < h.next := hmm.1
  have hmv := hmm.2
  have hrsn : rs < h.next := hmv _ (alookup_mem hrs)
  have hrdn : rd < h.next := hmv _ (alookup_mem hrd)
  by_cases hsame : dstId = srcId
  · -- same-column: the two cloned objects coincide
    subst hsame
    have hrr : rd = rs := by
      rw [hrs] at hrd
      injection hrd with hh
      exact hh.symm
    subst hrr
    rw [optimisticMoveHeap_same h bd m rd os la taskId dstId srcIdx dstIdx hm hrs hos hla]
    dsimp only
    have frameCols : ∀ r, r < h.next →
        alookup (aset (aset (h.cols ++ [(h.next, os)]) h.next { os with taskIds := h.next + 1 }) h.next { os with taskIds := h.next + 2 }) r = alookup h.cols r := by
      intro r hr
      rw [alookup_aset_ne _ h.next r _ (by omega),
          alookup_aset_ne _ h.next r _ (by omega),
          alookup_append_single_ne _ h.next r _ (by omega)]
    have frameArrs : ∀ r, r < h.next →
        alookup (aset (aset (h.arrs ++ [(h.next + 1, la)]) (h.next + 1) (spliceRemoveOne la srcIdx) ++ [(h.next + 2, spliceRemoveOne la srcIdx)]) (h.next + 2) (spliceInsertAt (spliceRemoveOne la srcIdx) dstIdx taskId)) r = alookup h.arrs r := by
      intro r hr
      rw [alookup_aset_ne _ (h.next + 2) r _ (by omega),
          alookup_append_single_ne _ (h.next + 2) r _ (by omega),
          alookup_aset_ne _ (h.next + 1) r _ (by omega),
          alookup_append_single_ne _ (h.next + 1) r _ (by omega)]
    have frameMaps : ∀ r, r < h.next →
        alookup (h.maps ++ [(h.next + 3, aset (aset m dstId h.next) dstId h.next)]) r = alookup h.maps r := by
      intro r hr
      rw [alookup_append_single_ne _ (h.next + 3) r _ (by omega)]
    refine ⟨aset (aset m dstId h.next) dstId h.next, h.next, h.next, ?_, ?_, by omega, ?_, by omega, ?_, frameCols, frameArrs, frameMaps, ?_, ?_⟩
    · exact alookup_append_self_of_ne h.maps (h.next + 3) _
        (fun p hp => by have := (hwm p hp).1; omega)
    · exact alookup_aset_self (aset m dstId h.next) dstId h.next
    · exact alookup_aset_self (aset m dstId h.next) dstId h.next
    · rw [alookup_append_single_ne _ (h.next + 3) bd.columnsRef _ (by omega)]
      exact hm
    · intro cid0 r hq
      exact frameCols r (hmv _ (alookup_mem hq))
    · intro cid0 r o hq ho
      exact frameArrs o.taskIds (hwc _ (alookup_mem ho)).2
  · -- cross-column
    rw [optimisticMoveHeap_cross h bd m rs rd os od la ld taskId srcId dstId srcIdx dstIdx hsame hm hrs hrd hos hod hla hld]
    dsimp only
    have frameCols : ∀ r, r < h.next →
        alookup (aset (aset (h.cols ++ [(h.next, os)] ++ [(h.next + 1, od)]) h.next { os with taskIds := h.next + 2 }) (h.next + 1) { od with taskIds := h.next + 3 }) r = alookup h.cols r := by
      intro r hr
      rw [alookup_aset_ne _ (h.next + 1) r _ (by omega),
          alookup_aset_ne _ h.next r _ (by omega),
          alookup_append_single_ne _ (h.next + 1) r _ (by omega),
          alookup_append_single_ne _ h.next r _ (by omega)]
    have frameArrs : ∀ r, r < h.next →
        alookup (aset (aset (h.arrs ++ [(h.next + 2, la)]) (h.next + 2) (spliceRemoveOne la srcIdx) ++ [(h.next + 3, ld)]) (h.next + 3) (spliceInsertAt ld dstIdx taskId)) r = alookup h.arrs r := by
      intro r hr
      rw [alookup_aset_ne _ (h.next + 3) r _ (by omega),
          alookup_append_single_ne _ (h.next + 3) r _ (by omega),
          alookup_aset_ne _ (h.next + 2) r _ (by omega),
          alookup_append_single_ne _ (h.next + 2) r _ (by omega)]
    have frameMaps : ∀ r, r < h.next →
        alookup (h.maps ++ [(h.next + 4, aset (aset m srcId h.next) dstId (h.next + 1))]) r = alookup h.maps r := by
      intro r hr
      rw [alookup_append_single_ne _ (h.next + 4) r _ (by omega)]
    refine ⟨aset (aset m srcId h.next) dstId (h.next + 1), h.next, h.next + 1, ?_, ?_, by omega, ?_, by omega, ?_, frameCols, frameArrs, frameMaps, ?_, ?_⟩
    · exact alookup_append_self_of_ne h.maps (h.next + 4) _
        (fun p hp => by have := (hwm p hp).1; omega)
    · rw [alookup_aset_ne _ dstId srcId _ (fun he => hsame he.symm)]
      exact alookup_aset_self m srcId h.next
    · exact alookup_aset_self (aset m srcId h.next) dstId (h.next + 1)
    · rw [alookup_append_single_ne _ (h.next + 4) bd.columnsRef _ (by omega)]
      exact hm
    · intro cid0 r hq
      exact frameCols r (hmv _ (alookup_mem hq))
    · intro cid0 r o hq ho
      exact frameArrs o.taskIds (hwc _ (alookup_mem ho)).2

/-- A concrete heap holding the seeded board: three arrays, three
column objects, one columns mapping. -/
def seedHeap : Heap :=
  { arrs := [(0, ["task-1"]), (1, []), (2, [])]
    cols := [(3, ⟨"todo", "To Do", 0⟩), (4, ⟨"inprogress", "In Progress", 1⟩),
             (5, ⟨"done", "Done", 2⟩)]
    maps := [(6, [("todo", 3), ("inprogress", 4), ("done", 5)])]
    next := 7 }

/-- C5 witness: moving the seeded task from `todo` to `done` on a
concrete heap produces fresh column objects and leaves every old object
unchanged. -/
theorem optimisticMoveHeap_identity_witness :
    ∃ m' rs' rd',
      alookup (optimisticMoveHeap seedHeap ⟨6⟩ "task-1" "todo" "done" 0 0).1.maps (optimisticMoveHeap seedHeap ⟨6⟩ "task-1" "todo" "done" 0 0).2.columnsRef = some m' ∧
      alookup m' "todo" = some rs' ∧ rs' ≠ 3 ∧
      alookup m' "done" = some rd' ∧ rd' ≠ 5 ∧
      alookup (optimisticMoveHeap seedHeap ⟨6⟩ "task-1" "todo" "done" 0 0).1.maps (BoardDataObj.mk 6).columnsRef = some [("todo", 3), ("inprogress", 4), ("done", 5)] ∧
      (∀ r, r < seedHeap.next → alookup (optimisticMoveHeap seedHeap ⟨6⟩ "task-1" "todo" "done" 0 0).1.cols r = alookup seedHeap.cols r) ∧
      (∀ r, r < seedHeap.next → alookup (optimisticMoveHeap seedHeap ⟨6⟩ "task-1" "todo" "done" 0 0).1.arrs r = alookup seedHeap.arrs r) ∧
      (∀ r, r < seedHeap.next → alookup (optimisticMoveHeap seedHeap ⟨6⟩ "task-1" "todo" "done" 0 0).1.maps r = alookup seedHeap.maps r) ∧
      (∀ cid0 r, alookup [("todo", 3), ("inprogress", 4), ("done", 5)] cid0 = some r → alookup (optimisticMoveHeap seedHeap ⟨6⟩ "task-1" "todo" "done" 0 0).1.cols r = alookup seedHeap.cols r) ∧
      (∀ cid0 r o, alookup [("todo", 3), ("inprogress", 4), ("done", 5)] cid0 = some r → alookup seedHeap.cols r = some o → alookup (optimisticMoveHeap seedHeap ⟨6⟩ "task-1" "todo" "done" 0 0).1.arrs o.taskIds = alookup seedHeap.arrs o.taskIds) :=
  optimisticMoveHeap_identity seedHeap ⟨6⟩ [("todo", 3), ("inprogress", 4), ("done", 5)]
    3 5 ⟨"todo", "To Do", 0⟩ ⟨"done", "Done", 2⟩ ["task-1"] [] "task-1" "todo" "done" 0 0
    ⟨by decide, by decide, by decide⟩ (by decide) (by decide) (by decide)
    (by decide) (by decide) (by decide) (by decide)

end Kanban
